import Mathlib

/-!
# Lua-Applet: the native extension functions and the host driver

A shallow embedding of `src/extend/lua_extend.c` (the conversions `uint8`,
`uint16`, `uint32`, `float`, `double` and the cipher `encrypt`) and of the parts
of `src/app.c` that build the script-visible `arg` table and the message
handler, together with the fragment of the Lua C API these functions call.

Conventions of the model.

* A Lua string is a list of byte values; in memory it is followed by a
  terminating zero byte (the Lua runtime guarantees it).
* Machine integers are natural numbers reduced modulo `2 ^ w`. A `lua_Integer`
  is 64 bits wide; the script-level value is the signed reading `ofU64`.
* A `lua_Number` (IEEE double) and a C `float` are carried as their bit
  patterns. Whatever needs floating-point arithmetic or the C library (number
  formatting, `strtod`, casts between the numeric types) is a field of `Host`.
* The host is little-endian: byte `i` of an object holds bits `8*i .. 8*i+7`.
* `lua_encrypt` hands `luaL_checklstring` the address of a 4-byte `uint32_t`
  where the runtime stores a `size_t`. Where `size_t` is 8 bytes wide the
  store also writes the 4 bytes that follow the variable; which local lies
  there is a property of the build, the field `spill` of `Host`.
-/

namespace LuaApplet

/-- Byte strings, one natural number below 256 per byte. -/
abbrev Bytes := List Nat

/-- The bytes of an ASCII text. -/
def ascii (s : String) : Bytes := s.toList.map Char.toNat

/-- The basic types of Lua values, with `none` for an absent argument
(`LUA_TNONE`). -/
inductive LuaType where
  | none | nil | boolean | lightuserdata | number | string | table | function
  | userdata | thread
deriving DecidableEq, Repr

/-- Lua values as the C functions of this repository see them. Numbers come
in the two subtypes of Lua 5.3/5.4: `integer` (a `lua_Integer`) and `number`
(a float `lua_Number`, carried as its 64-bit pattern). Values of the remaining
types are opaque to the functions modelled. -/
inductive LuaValue where
  | nil
  | boolean (b : Bool)
  | integer (n : Int)
  | number (bits : Nat)
  | string (s : Bytes)
  | lightuserdata
  | table
  | function
  | userdata
  | thread
deriving DecidableEq, Repr

/-- Errors raised into the interpreter. `message` is `luaL_error` with the given
text; `typeError` is `luaL_typeerror` (through `luaL_checklstring`) for argument
`narg`, with the expected type name and the type actually found; `fault` is a
dereference of the null pointer that `lua_tolstring` returns for a value that
is neither a string nor a number. -/
inductive LuaError where
  | message (text : String)
  | typeError (narg : Nat) (expected : String) (found : LuaType)
  | fault
deriving DecidableEq, Repr

/-- The result of a C function: an error, or the values it leaves for the
caller (in order). -/
abbrev Outcome := Except LuaError (List LuaValue)

/-- What the four bytes after `key_len` in the frame of `lua_encrypt` hold: one
of the `uint32_t` locals that are live when the length of the key is stored, or
`nothing` (the bytes belong to no live variable, or `size_t` is 4 bytes wide
and nothing is written past `key_len`). -/
inductive SpillTarget where
  | nothing | idata_len | cs | ecs
deriving DecidableEq, Repr

/-- Services of the host the model does not compute: the C library's number
formatting and parsing, the casts between the numeric types, the bytes that
lie in memory past the terminator of a string, and the layout of the frame of
`lua_encrypt`. -/
structure Host where
  /-- Text of a float `lua_Number` as `lua_tolstring` produces it. -/
  number2str : Nat → Bytes
  /-- The conversion `l_str2d` of a whole string to a float, when it succeeds. -/
  str2d : Bytes → Option Nat
  /-- The cast of a `lua_Integer` to `lua_Number`. -/
  int2number : Int → Nat
  /-- The cast of a double to a C `float` (bit pattern of the float). -/
  double2float : Nat → Nat
  /-- The cast of a C `float` to a double. -/
  float2double : Nat → Nat
  /-- The byte found at offset `i` from the start of string `s`, for an offset
  past the terminator. -/
  beyond : Bytes → Nat → Nat
  /-- The local that receives the upper half of the 8-byte store through
  `(size_t*)&key_len`. -/
  spill : SpillTarget

/-- A host for evaluating the model at concrete inputs: zero bytes past every
string, no floating-point services, and a frame in which the store of the
key's length touches no other local. -/
def plainHost : Host where
  number2str := fun _ => []
  str2d := fun _ => none
  int2number := fun _ => 0
  double2float := fun d => d % 2 ^ 32
  float2double := fun f => f
  beyond := fun _ _ => 0
  spill := .nothing

/-- The host `plainHost` with the local `t` placed right after `key_len`. -/
def spillHost (t : SpillTarget) : Host := { plainHost with spill := t }

/-! ## Machine integers -/

/-- The 64-bit pattern of a script integer (`l_castS2U`). -/
def toU64 (n : Int) : Nat := (n % (2 ^ 64 : Int)).toNat

/-- The signed reading of a 64-bit pattern (`l_castU2S`). -/
def ofU64 (u : Nat) : Int :=
  if u % 2 ^ 64 < 2 ^ 63 then (u % 2 ^ 64 : Nat) else ((u % 2 ^ 64 : Nat) : Int) - 2 ^ 64

/-- Lua's integer operator `&`: `l_castU2S(l_castS2U(a) & l_castS2U(b))`. -/
def luaBand (a b : Int) : Int := ofU64 (toU64 a &&& toU64 b)

/-- The first `size` bytes of the in-memory representation of an object whose
bit pattern is `x` (little-endian). -/
def objectBytes (size : Nat) (x : Nat) : Bytes :=
  (List.range size).map fun i => x / 256 ^ i % 256

/-- The byte at offset `i` from the pointer `lua_tolstring` returns for `s`:
the string's own bytes, its terminating zero, then whatever the host has
there. -/
def memByte (h : Host) (s : Bytes) (i : Nat) : Nat :=
  if i < s.length then s.getD i 0 % 256
  else if i = s.length then 0
  else h.beyond s i % 256

/-- The bit pattern of a `size`-byte object read at the start of string `s`
(`*(T*)lua_tostring(L,1)`, little-endian). -/
def loadObject (h : Host) (s : Bytes) (size : Nat) : Nat :=
  ((List.range size).map fun i => memByte h s i * 256 ^ i).sum

/-! ## The fragment of the Lua C API used by the repository

The functions of this section belong to the Lua runtime the repository links
against. They are modelled after the Lua 5.4 reference manual (section 4.6 and
the auxiliary library) and, for the coercion of strings to numbers, after
`lobject.c`. A C function called with the argument list `L` sees argument `i`
at stack index `i`. -/

/-- The value at stack index `idx` (1-based) of a C function called with the
arguments `L`; `none` when the index is above the top. -/
def index (L : List LuaValue) (idx : Nat) : Option LuaValue :=
  if idx = 0 then none else L.get? (idx - 1)

/-- The call `lua_gettop`. -/
def lua_gettop (L : List LuaValue) : Nat := L.length

/-- The call `lua_type`. -/
def lua_type (L : List LuaValue) (idx : Nat) : LuaType :=
  match index L idx with
  | none => .none
  | some .nil => .nil
  | some (.boolean _) => .boolean
  | some (.integer _) => .number
  | some (.number _) => .number
  | some (.string _) => .string
  | some .lightuserdata => .lightuserdata
  | some .table => .table
  | some .function => .function
  | some .userdata => .userdata
  | some .thread => .thread

/-- The name `lua_typename` gives a type. -/
def lua_typename : LuaType → String
  | .none => "no value"
  | .nil => "nil"
  | .boolean => "boolean"
  | .lightuserdata => "userdata"
  | .number => "number"
  | .string => "string"
  | .table => "table"
  | .function => "function"
  | .userdata => "userdata"
  | .thread => "thread"

/-- The call `luaL_typename(L, idx)`. -/
def luaL_typename (L : List LuaValue) (idx : Nat) : String :=
  lua_typename (lua_type L idx)

/-- The call `lua_isnil`. -/
def lua_isnil (L : List LuaValue) (idx : Nat) : Bool :=
  lua_type L idx == .nil

/-- The call `lua_isinteger`: the value is a number represented as an integer. -/
def lua_isinteger (L : List LuaValue) (idx : Nat) : Bool :=
  match index L idx with
  | some (.integer _) => true
  | _ => false

/-- The call `lua_isstring`: the value is a string or a number (which is
always convertible to a string). -/
def lua_isstring (L : List LuaValue) (idx : Nat) : Bool :=
  match index L idx with
  | some (.string _) => true
  | some (.integer _) => true
  | some (.number _) => true
  | _ => false

/-- The call `lua_tointeger` on an integer value (0 otherwise). -/
def lua_tointeger (L : List LuaValue) (idx : Nat) : Int :=
  match index L idx with
  | some (.integer n) => n
  | _ => 0

/-! ### Conversions between strings and numbers (`lobject.c`) -/

/-- The test `lisspace`. -/
def lisspace (c : Nat) : Bool := c == 32 || (9 ≤ c && c ≤ 13)

/-- The test `lisdigit`. -/
def lisdigit (c : Nat) : Bool := 48 ≤ c && c ≤ 57

/-- The test `lisxdigit`. -/
def lisxdigit (c : Nat) : Bool :=
  lisdigit c || (65 ≤ c && c ≤ 70) || (97 ≤ c && c ≤ 102)

/-- The function `luaO_hexavalue`. -/
def luaO_hexavalue (c : Nat) : Nat :=
  if lisdigit c then c - 48 else if 97 ≤ c then c - 97 + 10 else c - 65 + 10

/-- The hexadecimal loop of `l_str2int`: accumulates modulo `2 ^ 64`; returns
the accumulator, whether no digit was read, and the rest of the text. -/
def readHex (a : Nat) (empty : Bool) : Bytes → Nat × Bool × Bytes
  | [] => (a, empty, [])
  | c :: cs =>
    if lisxdigit c then readHex ((a * 16 + luaO_hexavalue c) % 2 ^ 64) false cs
    else (a, empty, c :: cs)

/-- The decimal loop of `l_str2int`; `none` on overflow of a `lua_Integer`. -/
def readDec (neg : Bool) (a : Nat) (empty : Bool) : Bytes → Option (Nat × Bool × Bytes)
  | [] => some (a, empty, [])
  | c :: cs =>
    if lisdigit c then
      let d := c - 48
      if a > 922337203685477580 ∨ (a = 922337203685477580 ∧ d > 7 + (if neg then 1 else 0)) then
        none
      else readDec neg (a * 10 + d) false cs
    else some (a, empty, c :: cs)

/-- The function `l_str2int`: the integer a text denotes and the number of
characters read up to the zero byte that ends the numeral, or `none`. The end
of the list stands for the terminator. -/
def l_str2int (s : Bytes) : Option (Int × Nat) :=
  let s1 := s.dropWhile lisspace
  let neg := s1.head? == some 45
  let s2 := if s1.head? == some 45 ∨ s1.head? == some 43 then s1.tail else s1
  let r :=
    if s2.head? == some 48 ∧ ((s2.tail).head? == some 120 ∨ (s2.tail).head? == some 88) then
      some (readHex 0 true (s2.tail).tail)
    else readDec neg 0 true s2
  match r with
  | none => none
  | some (a, empty, s3) =>
    let s4 := s3.dropWhile lisspace
    if empty ∨ ¬ (s4.head? == none ∨ s4.head? == some 0) then none
    else some (ofU64 (if neg then (2 ^ 64 - a) % 2 ^ 64 else a), s.length - s4.length)

/-- The coercion of a string to a number (`l_strton` over `luaO_str2num`):
first as an integer, then as a float, and only if the whole string is the
numeral. -/
def l_strton (h : Host) (s : Bytes) : Option LuaValue :=
  match l_str2int s with
  | some (i, e) => if e = s.length then some (.integer i) else none
  | none =>
    match h.str2d s with
    | some d => some (.number d)
    | none => none

/-- The call `lua_tonumberx`: the `lua_Number` of a number or of a string
convertible to one. -/
def lua_tonumberx (h : Host) (L : List LuaValue) (idx : Nat) : Option Nat :=
  match index L idx with
  | some (.number d) => some d
  | some (.integer i) => some (h.int2number i)
  | some (.string s) =>
    match l_strton h s with
    | some (.number d) => some d
    | some (.integer i) => some (h.int2number i)
    | _ => none
  | _ => none

/-- The call `lua_isnumber`: the value is a number or a string convertible to a
number. -/
def lua_isnumber (h : Host) (L : List LuaValue) (idx : Nat) : Bool :=
  (lua_tonumberx h L idx).isSome

/-- The call `lua_tonumber` (0 when the value is not convertible). -/
def lua_tonumber (h : Host) (L : List LuaValue) (idx : Nat) : Nat :=
  (lua_tonumberx h L idx).getD 0

/-- The decimal text of a `lua_Integer` (`LUA_INTEGER_FMT`). -/
def lua_integer2str (n : Int) : Bytes :=
  if n < 0 then 45 :: (Nat.toDigits 10 n.natAbs).map Char.toNat
  else (Nat.toDigits 10 n.toNat).map Char.toNat

/-- The call `lua_tolstring` (and `lua_tostring`): the bytes of a string, the
text of a number, and the null pointer (`none`) for anything else. -/
def lua_tolstring (h : Host) (L : List LuaValue) (idx : Nat) : Option Bytes :=
  match index L idx with
  | some (.string s) => some s
  | some (.integer n) => some (lua_integer2str n)
  | some (.number d) => some (h.number2str d)
  | _ => none

/-- The call `luaL_checklstring`: the string at `idx`, or a type error. It
obtains its result from `lua_tolstring`, so a number is accepted and
converted. -/
def luaL_checklstring (h : Host) (L : List LuaValue) (idx : Nat) : Except LuaError Bytes :=
  match lua_tolstring h L idx with
  | some s => .ok s
  | none => .error (.typeError idx "string" (lua_type L idx))

/-- The call `luaL_error` with a constant text, raised from a C function (no
position is prefixed at that level). -/
def luaL_error (text : String) : Outcome := .error (.message text)

/-! ## `src/extend/lua_extend.c`: fixed-width conversions -/

/-- The function `conv_uint32`. -/
def conv_uint32 (h : Host) (L : List LuaValue) : Outcome :=
  if lua_isinteger L 1 then
    -- convert from int to string
    let val := lua_tointeger L 1
    let bfr := objectBytes 8 (toU64 val)
    .ok [.string (bfr.take 4)]
  else if lua_isstring L 1 then
    -- convert from string to integer
    match lua_tolstring h L 1 with
    | some s => .ok [.integer (ofU64 (loadObject h s 8 &&& 0xFFFFFFFF))]
    | none => .error .fault
  else luaL_error "Incompatible type for argument 1, expected string or integer"

/-- The function `conv_float`. -/
def conv_float (h : Host) (L : List LuaValue) : Outcome :=
  if lua_isnumber h L 1 then
    let val := h.double2float (lua_tonumber h L 1)
    let bfr := objectBytes 4 val
    .ok [.string (bfr.take 4)]
  else if lua_isstring L 1 then
    match lua_tolstring h L 1 with
    | some s => .ok [.number (h.float2double (loadObject h s 4))]
    | none => .error .fault
  else luaL_error "Incompatible type for argument 1, expected string or number"

/-- The function `conv_uint16`. -/
def conv_uint16 (h : Host) (L : List LuaValue) : Outcome :=
  if lua_isinteger L 1 then
    let val := lua_tointeger L 1
    let bfr := objectBytes 8 (toU64 val)
    .ok [.string (bfr.take 2)]
  else if lua_isstring L 1 then
    match lua_tolstring h L 1 with
    | some s => .ok [.integer (ofU64 (loadObject h s 8 &&& 0xFFFF))]
    | none => .error .fault
  else luaL_error "Incompatible type for argument 1, expected string or integer"

/-- The function `conv_uint8`. -/
def conv_uint8 (h : Host) (L : List LuaValue) : Outcome :=
  if lua_isinteger L 1 then
    let val := lua_tointeger L 1
    let bfr := objectBytes 8 (toU64 val)
    .ok [.string (bfr.take 1)]
  else if lua_isstring L 1 then
    match lua_tolstring h L 1 with
    | some s => .ok [.integer (ofU64 (loadObject h s 8 &&& 0xFF))]
    | none => .error .fault
  else luaL_error "Incompatible type for argument 1, expected string or integer"

/-- The function `conv_double`. -/
def conv_double (h : Host) (L : List LuaValue) : Outcome :=
  if lua_isnumber h L 1 then
    let val := lua_tonumber h L 1
    let bfr := objectBytes 8 val
    .ok [.string (bfr.take 8)]
  else if lua_isstring L 1 then
    match lua_tolstring h L 1 with
    | some s => .ok [.number (loadObject h s 8)]
    | none => .error .fault
  else luaL_error "Incompatible type for argument 1, expected string or number"

/-! ## `src/extend/lua_extend.c`: the cipher -/

/-- The first loop of `lua_encrypt`: `cs += (uint8_t)idata[indx]` for
`indx < idata_len`, in a `uint32_t`. -/
def checksum (idata : Bytes) (idata_len : Nat) : Nat :=
  (List.range idata_len).foldl (fun cs indx => (cs + idata.getD indx 0 % 256) % 2 ^ 32) 0

/-- The variables the second loop of `lua_encrypt` updates, and the key
offsets it has read so far (`reads`, kept for reasoning about memory safety;
it does not influence the other fields). -/
structure CipherState where
  /-- The contents of the `luaL_Buffer`. -/
  bfr : Bytes
  /-- The key index. -/
  ki : Nat
  /-- The checksum of the bytes produced. -/
  ecs : Nat
  /-- The offsets at which `key` was read. -/
  reads : List Nat
deriving DecidableEq, Repr

/-- One iteration of the second loop of `lua_encrypt`. The operands of `^` are
`char` values promoted to `int`; after `& 0xFF` only their low bytes matter. -/
def cipherStep (h : Host) (idata key : Bytes) (key_len : Nat) (st : CipherState)
    (indx : Nat) : CipherState :=
  let val := (memByte h idata indx ^^^ memByte h key st.ki) &&& 0xFF
  let ki := (st.ki + 1) % 2 ^ 32
  { bfr := st.bfr ++ [val % 256]
    ki := if ki ≥ key_len then 0 else ki
    ecs := (st.ecs + val % 256) % 2 ^ 32
    reads := st.reads ++ [st.ki] }

/-- The second loop of `lua_encrypt`, entered with the value `ecs` of the
checksum variable. -/
def cipherLoop (h : Host) (idata key : Bytes) (idata_len key_len ecs : Nat) : CipherState :=
  (List.range idata_len).foldl (cipherStep h idata key key_len)
    { bfr := [], ki := 0, ecs := ecs, reads := [] }

/-- The value of the local `t` after `luaL_checklstring(L, 2, (size_t*)&key_len)`
has stored the length of `key`: the upper 32 bits of that length if `t` lies
right after `key_len`, and the value `v` it had otherwise. -/
def afterKeyStore (h : Host) (key : Bytes) (t : SpillTarget) (v : Nat) : Nat :=
  if h.spill = t then key.length / 2 ^ 32 % 2 ^ 32 else v

/-- The function `lua_encrypt`. The two lengths are `uint32_t` variables; each
holds the low 32 bits of the `size_t` length `luaL_checklstring` stores. The
upper half of the first store (line 182) lands on bytes that lines 183-185
initialise afterwards or that hold no local; the upper half of the second
store (line 196) is written while `idata_len`, `cs` and `ecs` are live, and
reaches the one `h.spill` names. -/
def lua_encrypt (h : Host) (L : List LuaValue) : Outcome :=
  match luaL_checklstring h L 1 with
  | .error e => .error e
  | .ok idata =>
    let idata_len := idata.length % 2 ^ 32
    let cs := checksum idata idata_len
    if lua_gettop L = 1 ∨ lua_isnil L 2 then
      -- no key, just return input data
      .ok [.string (idata.take idata_len), .integer cs, .integer cs]
    else
      match luaL_checklstring h L 2 with
      | .error e => .error e
      | .ok key =>
        let key_len := key.length % 2 ^ 32
        let idata_len := afterKeyStore h key .idata_len idata_len
        let cs := afterKeyStore h key .cs cs
        let ecs := afterKeyStore h key .ecs 0
        let st := cipherLoop h idata key idata_len key_len ecs
        .ok [.string st.bfr, .integer cs, .integer st.ecs]

/-- Closed form of the key index at data byte `i`: `i mod key_len`, and 0 for
an empty key. -/
def keyOffset (key_len i : Nat) : Nat := if key_len = 0 then 0 else i % key_len

/-- Closed form of the byte the second loop produces at position `i`. -/
def cipherByte (h : Host) (idata key : Bytes) (key_len i : Nat) : Nat :=
  ((memByte h idata i ^^^ memByte h key (keyOffset key_len i)) &&& 0xFF) % 256

/-- Closed form of the bytes the second loop produces for data `d` and key
`k`. -/
def cipherText (h : Host) (d k : Bytes) : Bytes :=
  (List.range d.length).map (cipherByte h d k k.length)

/-- The key offsets `lua_encrypt` reads when called with data `idata` and key
`key` (both strings). -/
def keyReads (h : Host) (idata key : Bytes) : List Nat :=
  (cipherLoop h idata key (afterKeyStore h key .idata_len (idata.length % 2 ^ 32))
    (key.length % 2 ^ 32) (afterKeyStore h key .ecs 0)).reads

/-- A byte string as `lua_encrypt` can be handed one: every element is a byte,
and the length fits the `uint32_t` variable that receives it. (The length is
stored through a `size_t *` that points at that variable, which is only
meaningful for lengths below `2 ^ 32`.) -/
def ByteString (s : Bytes) : Prop := (∀ b ∈ s, b < 256) ∧ s.length < 2 ^ 32

instance (s : Bytes) : Decidable (ByteString s) := by
  unfold ByteString; exact inferInstance

/-! ## `src/app.c`: the `arg` table and the message handler -/

/-- A Lua table with integer keys, as the pairs it holds. -/
abbrev LuaTable := List (Int × LuaValue)

/-- The call `lua_rawseti`: `t[i] = v`. -/
def lua_rawseti (t : LuaTable) (i : Int) (v : LuaValue) : LuaTable :=
  (i, v) :: t.filter fun p => p.1 ≠ i

/-- The call `lua_rawgeti`: `t[i]`, nil when absent. -/
def lua_rawgeti (t : LuaTable) (i : Int) : LuaValue :=
  match t.find? fun p => p.1 == i with
  | some p => p.2
  | none => .nil

/-- The call `lua_pushstring` on `argv[i]`: the string, or nil for a null
pointer (an index outside `argv`). -/
def lua_pushstring (s : Option Bytes) : LuaValue :=
  match s with
  | some b => .string b
  | none => .nil

/-- The table `pmain` stores in the global `arg`:
`for (i = 0; i < argc; i++) arg[i] = argv[i]`. -/
def pmain (argc : Nat) (argv : List Bytes) : LuaTable :=
  (List.range argc).foldl
    (fun (t : LuaTable) (i : Nat) => lua_rawseti t (Int.ofNat i) (lua_pushstring (argv.get? i))) []

/-- The `arg` table of a run of `main` with the command line `argv`: `main`
hands `argc` and `argv` to `pmain`. -/
def main (argv : List Bytes) : LuaTable := pmain argv.length argv

/-- The bytes of a string up to its first zero byte: what a C function
taking a `const char *` sees of it. -/
def cstring (s : Bytes) : Bytes := s.takeWhile fun c => c ≠ 0

/-- The call `luaL_traceback(L, L, msg, 1)`: the message, a newline, the
heading and the rendered stack levels `frames`. -/
def luaL_traceback (msg : Bytes) (frames : Bytes) : Bytes :=
  cstring msg ++ [10] ++ ascii "stack traceback:" ++ frames

/-- The function `msghandler`, applied to the error value `v`. The parameter
`callmeta` is `luaL_callmeta(L, 1, "__tostring")`: `none` when the value has no
such metamethod, otherwise the value the metamethod returns. -/
def msghandler (h : Host) (callmeta : LuaValue → Option LuaValue) (frames : Bytes)
    (v : LuaValue) : LuaValue :=
  match lua_tolstring h [v] 1 with
  | some msg => .string (luaL_traceback msg frames)
  | none =>
    match callmeta v with
    | some (.string s) => .string s
    | _ =>
      let msg := ascii "(error object is a " ++ ascii (luaL_typename [v] 1) ++ ascii " value)"
      .string (luaL_traceback msg frames)

/-! ## Lemmas on the loops of `lua_encrypt` -/

theorem foldl_range_add_mod (f : Nat → Nat) (M n : Nat) :
    (List.range n).foldl (fun cs i => (cs + f i) % M) 0 = ((List.range n).map f).sum % M := by
  induction n with
  | zero => simp
  | succ n ih =>
    rw [List.range_succ, List.foldl_append, ih]
    simp [List.sum_append, Nat.add_mod]

theorem range_map_getD (d : Bytes) : (List.range d.length).map (fun i => d.getD i 0) = d := by
  apply List.ext_getElem
  · simp
  · intro n h1 h2
    simp at h1
    simp [h1]

theorem range_map_getD_mod (d : Bytes) (hd : ∀ b ∈ d, b < 256) :
    (List.range d.length).map (fun i => d.getD i 0 % 256) = d := by
  conv_rhs => rw [← range_map_getD d]
  apply List.map_congr_left
  intro i hi
  simp at hi
  have : d.getD i 0 ∈ d := by
    rw [List.getD_eq_getElem _ _ hi]
    exact List.getElem_mem _
  exact Nat.mod_eq_of_lt (hd _ this)

theorem checksum_eq (d : Bytes) (hd : ByteString d) :
    checksum d (d.length % 2 ^ 32) = d.sum % 2 ^ 32 := by
  rw [Nat.mod_eq_of_lt hd.2]
  unfold checksum
  rw [foldl_range_add_mod (fun i => d.getD i 0 % 256), range_map_getD_mod d hd.1]

theorem keyOffset_succ (key_len n : Nat) (hk : key_len < 2 ^ 32) :
    (if (keyOffset key_len n + 1) % 2 ^ 32 ≥ key_len then 0
      else (keyOffset key_len n + 1) % 2 ^ 32) = keyOffset key_len (n + 1) := by
  unfold keyOffset
  by_cases h0 : key_len = 0
  · simp [h0]
  · simp only [h0, if_false]
    have hpos : 0 < key_len := Nat.pos_of_ne_zero h0
    have hlt : n % key_len < key_len := Nat.mod_lt _ hpos
    have hsm : (n % key_len + 1) % 2 ^ 32 = n % key_len + 1 := Nat.mod_eq_of_lt (by omega)
    rw [hsm]
    have key : (n + 1) % key_len = (n % key_len + 1) % key_len := by
      rw [Nat.add_mod n 1 key_len]
      by_cases h1 : key_len = 1
      · subst h1; simp [Nat.mod_one]
      · rw [Nat.mod_eq_of_lt (show 1 < key_len by omega)]
    rw [key]
    by_cases hc : n % key_len + 1 ≥ key_len
    · have : n % key_len + 1 = key_len := by omega
      simp [this]
    · simp only [hc, if_false]
      exact (Nat.mod_eq_of_lt (by omega)).symm

theorem cipherLoop_fold (h : Host) (d k : Bytes) (key_len : Nat) (hk : key_len < 2 ^ 32)
    (n : Nat) :
    (List.range n).foldl (cipherStep h d k key_len) { bfr := [], ki := 0, ecs := 0, reads := [] }
      = { bfr := (List.range n).map (cipherByte h d k key_len)
          ki := keyOffset key_len n
          ecs := ((List.range n).map (cipherByte h d k key_len)).sum % 2 ^ 32
          reads := (List.range n).map (keyOffset key_len) } := by
  induction n with
  | zero => simp [keyOffset]
  | succ n ih =>
    rw [List.range_succ, List.foldl_append, ih]
    simp only [List.foldl_cons, List.foldl_nil, cipherStep, List.map_append, List.map_cons,
      List.map_nil, List.sum_append, List.sum_cons, List.sum_nil, Nat.add_zero]
    rw [keyOffset_succ key_len n hk]
    simp [cipherByte, Nat.add_mod]

theorem memByte_lt (h : Host) (s : Bytes) (i : Nat) : memByte h s i < 256 := by
  unfold memByte
  split
  · exact Nat.mod_lt _ (by decide)
  · split
    · decide
    · exact Nat.mod_lt _ (by decide)

theorem memByte_of_lt (h : Host) (s : Bytes) (hs : ∀ b ∈ s, b < 256) (i : Nat)
    (hi : i < s.length) : memByte h s i = s.getD i 0 := by
  unfold memByte
  rw [if_pos hi]
  have : s.getD i 0 ∈ s := by
    rw [List.getD_eq_getElem _ _ hi]
    exact List.getElem_mem _
  exact Nat.mod_eq_of_lt (hs _ this)

theorem and_ff (x : Nat) : x &&& 0xFF = x % 256 := by
  have := Nat.and_pow_two_sub_one_eq_mod x 8
  simpa using this

theorem cipherByte_lt (h : Host) (d k : Bytes) (key_len i : Nat) :
    cipherByte h d k key_len i < 256 := by
  unfold cipherByte
  exact Nat.mod_lt _ (by decide)

theorem cipherByte_eq (h : Host) (d k : Bytes) (key_len i : Nat) :
    cipherByte h d k key_len i
      = (memByte h d i ^^^ memByte h k (keyOffset key_len i)) &&& 0xFF := by
  unfold cipherByte
  rw [and_ff, Nat.mod_mod]

theorem cipherByte_xor (h : Host) (d k : Bytes) (key_len i : Nat) :
    cipherByte h d k key_len i = memByte h d i ^^^ memByte h k (keyOffset key_len i) := by
  rw [cipherByte_eq, and_ff]
  apply Nat.mod_eq_of_lt
  exact Nat.xor_lt_two_pow (n := 8) (memByte_lt h d _) (memByte_lt h k _)

theorem cipherText_length (h : Host) (d k : Bytes) : (cipherText h d k).length = d.length := by
  simp [cipherText]

theorem cipherText_getD (h : Host) (d k : Bytes) (i : Nat) (hi : i < d.length) :
    (cipherText h d k).getD i 0 = cipherByte h d k k.length i := by
  have hl : i < (cipherText h d k).length := by rw [cipherText_length]; exact hi
  rw [List.getD_eq_getElem _ _ hl]
  simp [cipherText]

theorem cipherText_byteString (h : Host) (d k : Bytes) (hd : ByteString d) :
    ByteString (cipherText h d k) := by
  refine ⟨?_, ?_⟩
  · intro b hb
    simp only [cipherText, List.mem_map] at hb
    obtain ⟨i, _, rfl⟩ := hb
    exact cipherByte_lt h d k _ i
  · rw [cipherText_length]; exact hd.2

theorem cipherText_involutive (h : Host) (d k : Bytes) (hd : ByteString d) :
    cipherText h (cipherText h d k) k = d := by
  conv_rhs => rw [← range_map_getD d]
  have hlen := cipherText_length h d k
  have hbs := cipherText_byteString h d k hd
  unfold cipherText at hlen hbs ⊢
  rw [hlen]
  apply List.map_congr_left
  intro i hi
  simp only [List.mem_range] at hi
  have hc := cipherText_getD h d k i hi
  unfold cipherText at hc
  rw [cipherByte_xor, memByte_of_lt h _ hbs.1 i (by rw [hlen]; exact hi), hc, cipherByte_xor,
    Nat.xor_cancel_right, memByte_of_lt h d hd.1 i hi]

theorem afterKeyStore_nothing (h : Host) (hs : h.spill = .nothing) (key : Bytes)
    (t : SpillTarget) (ht : t ≠ .nothing) (v : Nat) : afterKeyStore h key t v = v := by
  unfold afterKeyStore
  rw [hs, if_neg (fun e => ht e.symm)]

theorem lua_encrypt_with_key (h : Host) (hs : h.spill = .nothing) (d k : Bytes)
    (hd : ByteString d) (hk : ByteString k) :
    lua_encrypt h [.string d, .string k]
      = .ok [.string (cipherText h d k), .integer ((d.sum % 2 ^ 32 : Nat) : Int),
          .integer (((cipherText h d k).sum % 2 ^ 32 : Nat) : Int)] := by
  have h1 : luaL_checklstring h [.string d, .string k] 1 = .ok d := rfl
  have h2 : luaL_checklstring h [.string d, .string k] 2 = .ok k := rfl
  have h3 : ¬ (lua_gettop [LuaValue.string d, LuaValue.string k] = 1
      ∨ lua_isnil [LuaValue.string d, LuaValue.string k] 2 = true) := by
    simp [lua_gettop, lua_isnil, lua_type, index]
  unfold lua_encrypt
  simp only [h1, h2, h3, if_false]
  rw [checksum_eq d hd, afterKeyStore_nothing h hs k .idata_len (by decide),
    afterKeyStore_nothing h hs k .cs (by decide), afterKeyStore_nothing h hs k .ecs (by decide)]
  unfold cipherLoop
  rw [cipherLoop_fold h d k _ (Nat.mod_lt _ (by decide))]
  simp only [Nat.mod_eq_of_lt hd.2, Nat.mod_eq_of_lt hk.2]
  rfl

theorem lua_encrypt_no_key (h : Host) (d : Bytes) (hd : ByteString d) (rest : List LuaValue)
    (hr : rest = [] ∨ rest = [.nil]) :
    lua_encrypt h (.string d :: rest)
      = .ok [.string d, .integer ((d.sum % 2 ^ 32 : Nat) : Int),
          .integer ((d.sum % 2 ^ 32 : Nat) : Int)] := by
  have h1 : luaL_checklstring h (.string d :: rest) 1 = .ok d := rfl
  have h3 : lua_gettop (LuaValue.string d :: rest) = 1
      ∨ lua_isnil (LuaValue.string d :: rest) 2 = true := by
    rcases hr with rfl | rfl
    · left; rfl
    · right; rfl
  unfold lua_encrypt
  simp only [h1, h3, if_true]
  rw [checksum_eq d hd, Nat.mod_eq_of_lt hd.2, List.take_length]

theorem cipherText_empty_key (h : Host) (d : Bytes) (hd : ByteString d) :
    cipherText h d [] = d := by
  conv_rhs => rw [← range_map_getD d]
  unfold cipherText
  apply List.map_congr_left
  intro i hi
  simp only [List.mem_range] at hi
  rw [cipherByte_xor, memByte_of_lt h d hd.1 i hi]
  simp [keyOffset, memByte]

theorem cipherByte_nonempty_key (h : Host) (d k : Bytes) (hd : ByteString d)
    (hk : ByteString k) (hne : k ≠ []) (i : Nat) (hi : i < d.length) :
    cipherByte h d k k.length i = (d.getD i 0 ^^^ k.getD (i % k.length) 0) &&& 0xFF := by
  have hpos : 0 < k.length := List.length_pos.mpr hne
  have hko : keyOffset k.length i = i % k.length := by
    unfold keyOffset
    rw [if_neg (by omega)]
  rw [cipherByte_eq, memByte_of_lt h d hd.1 i hi, hko,
    memByte_of_lt h k hk.1 _ (Nat.mod_lt _ hpos)]

/-! ## The keyed branch of `lua_encrypt` where the store of the key's length is harmless

On a host whose `spill` is `nothing` the keyed branch computes what it is meant
to compute. The three lemmas below record that; they are what the keyed branch
does on builds where the four bytes after `key_len` hold no live local. -/

/-- With `spill = nothing`: `encrypt(d, k)` for a non-empty key returns three
values `(c, cs, ecs)`, `c` as long as `d` with `c[i] = (d[i] XOR k[i mod length
k]) & 0xFF`, and `cs`, `ecs` the byte sums of `d` and `c` modulo `2 ^ 32`. -/
theorem keyed_values_without_spill (h : Host) (hs : h.spill = .nothing) (d k : Bytes)
    (hd : ByteString d) (hk : ByteString k) (hne : k ≠ []) :
    ∃ (c : Bytes) (cs ecs : Int),
      lua_encrypt h [.string d, .string k] = .ok [.string c, .integer cs, .integer ecs]
      ∧ c.length = d.length
      ∧ (∀ i, i < d.length → c.getD i 0 = (d.getD i 0 ^^^ k.getD (i % k.length) 0) &&& 0xFF)
      ∧ cs = ((d.sum % 2 ^ 32 : Nat) : Int)
      ∧ ecs = ((c.sum % 2 ^ 32 : Nat) : Int) := by
  refine ⟨cipherText h d k, _, _, lua_encrypt_with_key h hs d k hd hk,
    cipherText_length h d k, ?_, rfl, rfl⟩
  intro i hi
  rw [cipherText_getD h d k i hi]
  exact cipherByte_nonempty_key h d k hd hk hne i hi

/-- With `spill = nothing`: if `encrypt(d, k)` returns `(c, cs, ecs)` then
`encrypt(c, k)` returns `(d, ecs, cs)`. -/
theorem keyed_involution_without_spill (h : Host) (hs : h.spill = .nothing) (d k : Bytes)
    (hd : ByteString d) (hk : ByteString k) :
    (∃ (c : Bytes) (cs ecs : Int),
      lua_encrypt h [.string d, .string k] = .ok [.string c, .integer cs, .integer ecs])
    ∧ ∀ (c : Bytes) (cs ecs : Int),
      lua_encrypt h [.string d, .string k] = .ok [.string c, .integer cs, .integer ecs] →
      lua_encrypt h [.string c, .string k] = .ok [.string d, .integer ecs, .integer cs] := by
  refine ⟨⟨_, _, _, lua_encrypt_with_key h hs d k hd hk⟩, ?_⟩
  intro c cs ecs hfirst
  rw [lua_encrypt_with_key h hs d k hd hk] at hfirst
  simp only [Except.ok.injEq, List.cons.injEq, LuaValue.string.injEq, LuaValue.integer.injEq,
    and_true] at hfirst
  obtain ⟨hc, hcs, hecs⟩ := hfirst
  subst hc
  rw [lua_encrypt_with_key h hs _ k (cipherText_byteString h d k hd) hk,
    cipherText_involutive h d k hd, ← hcs, ← hecs]

/-- With `spill = nothing`: `encrypt(d, "")` reads the key only at offset 0, its
terminating zero, keeps the key index at 0 and returns `(d, cs, cs)`. -/
theorem empty_key_without_spill (h : Host) (hs : h.spill = .nothing) (d : Bytes)
    (hd : ByteString d) :
    lua_encrypt h [.string d, .string []]
      = .ok [.string d, .integer ((d.sum % 2 ^ 32 : Nat) : Int),
          .integer ((d.sum % 2 ^ 32 : Nat) : Int)]
    ∧ keyReads h d [] = List.replicate d.length 0
    ∧ memByte h [] 0 = 0
    ∧ ∀ n, n ≤ d.length →
        ((List.range n).foldl (cipherStep h d [] 0)
          { bfr := [], ki := 0, ecs := 0, reads := [] }).ki = 0 := by
  have hk : ByteString [] := by decide
  refine ⟨?_, ?_, rfl, ?_⟩
  · rw [lua_encrypt_with_key h hs d [] hd hk, cipherText_empty_key h d hd]
  · unfold keyReads cipherLoop
    rw [afterKeyStore_nothing h hs [] .idata_len (by decide),
      afterKeyStore_nothing h hs [] .ecs (by decide),
      cipherLoop_fold h d [] _ (Nat.mod_lt _ (by decide))]
    simp only [Nat.mod_eq_of_lt hd.2]
    apply List.ext_getElem
    · simp
    · intro n h1 h2
      simp [keyOffset]
  · intro n _
    rw [cipherLoop_fold h d [] 0 (by decide)]
    simp [keyOffset]

theorem keyed_values_at_plainHost :
    lua_encrypt plainHost [.string [1, 2, 3], .string [255, 7]]
        = .ok [.string [254, 5, 252], .integer 6, .integer 511]
    ∧ lua_encrypt plainHost [.string [254, 5, 252], .string [255, 7]]
        = .ok [.string [1, 2, 3], .integer 511, .integer 6]
    ∧ lua_encrypt plainHost [.string [200, 100, 7], .string []]
        = .ok [.string [200, 100, 7], .integer 307, .integer 307] :=
  ⟨rfl, rfl, rfl⟩

/-! ## The claims on `encrypt` -/

/-- C2 at a failing input: `encrypt([1,2,3], [255,7])`. Where `idata_len` lies
right after `key_len`, the store of the key's length zeroes `idata_len`, the
second loop does not run and the call returns `("", 6, 0)`: the output is not as
long as the data and `ecs` is not the sum of `[254,5,252]`. Where `cs` lies
there, the call returns `([254,5,252], 0, 511)`: `cs` is not the sum of the data. -/
theorem encrypt_with_key_spill :
    lua_encrypt (spillHost .idata_len) [.string [1, 2, 3], .string [255, 7]]
      = .ok [.string [], .integer 6, .integer 0]
    ∧ lua_encrypt (spillHost .cs) [.string [1, 2, 3], .string [255, 7]]
      = .ok [.string [254, 5, 252], .integer 0, .integer 511] :=
  ⟨rfl, rfl⟩

/-- C1 at a failing input: `d = [1,2,3]`, `k = [255,7]`. Where `idata_len` lies
right after `key_len`, `encrypt(d, k)` returns `("", 6, 0)` and `encrypt("", k)`
returns `("", 0, 0)`, not `(d, 0, 6)`. Where `cs` lies there, `encrypt(d, k)`
returns `([254,5,252], 0, 511)` and the second pass returns `(d, 0, 6)`, not
`(d, 511, 0)`. -/
theorem encrypt_involution_spill :
    lua_encrypt (spillHost .idata_len) [.string [1, 2, 3], .string [255, 7]]
      = .ok [.string [], .integer 6, .integer 0]
    ∧ lua_encrypt (spillHost .idata_len) [.string [], .string [255, 7]]
      = .ok [.string [], .integer 0, .integer 0]
    ∧ lua_encrypt (spillHost .cs) [.string [1, 2, 3], .string [255, 7]]
      = .ok [.string [254, 5, 252], .integer 0, .integer 511]
    ∧ lua_encrypt (spillHost .cs) [.string [254, 5, 252], .string [255, 7]]
      = .ok [.string [1, 2, 3], .integer 0, .integer 6] :=
  ⟨rfl, rfl, rfl, rfl⟩

/-- C3: for every byte string `d`, `encrypt(d)` with no key and `encrypt(d, nil)`
both return `d` unchanged followed by two equal checksums, each the sum of the
bytes of `d` modulo `2 ^ 32`. -/
theorem encrypt_without_key (h : Host) (d : Bytes) (hd : ByteString d) :
    lua_encrypt h [.string d]
      = .ok [.string d, .integer ((d.sum % 2 ^ 32 : Nat) : Int),
          .integer ((d.sum % 2 ^ 32 : Nat) : Int)]
    ∧ lua_encrypt h [.string d, .nil]
      = .ok [.string d, .integer ((d.sum % 2 ^ 32 : Nat) : Int),
          .integer ((d.sum % 2 ^ 32 : Nat) : Int)] :=
  ⟨lua_encrypt_no_key h d hd [] (Or.inl rfl), lua_encrypt_no_key h d hd [.nil] (Or.inr rfl)⟩

theorem encrypt_without_key_witness :
    ByteString [200, 100, 7]
    ∧ lua_encrypt plainHost [.string [200, 100, 7]]
      = .ok [.string [200, 100, 7], .integer ((([200, 100, 7] : Bytes).sum % 2 ^ 32 : Nat) : Int),
          .integer ((([200, 100, 7] : Bytes).sum % 2 ^ 32 : Nat) : Int)]
    ∧ lua_encrypt plainHost [.string [200, 100, 7], .nil]
      = .ok [.string [200, 100, 7], .integer ((([200, 100, 7] : Bytes).sum % 2 ^ 32 : Nat) : Int),
          .integer ((([200, 100, 7] : Bytes).sum % 2 ^ 32 : Nat) : Int)] :=
  ⟨by decide, encrypt_without_key plainHost [200, 100, 7] (by decide)⟩

/-- C10 at a failing input: `encrypt([200,100,7], "")`. Where `idata_len` lies
right after `key_len`, the store of the empty key's length zeroes `idata_len`:
no key byte is read and the call returns `("", 307, 0)`, not `(d, 307, 307)`.
Where `cs` lies there, the call returns `(d, 0, 307)`. -/
theorem encrypt_empty_key_spill :
    lua_encrypt (spillHost .idata_len) [.string [200, 100, 7], .string []]
      = .ok [.string [], .integer 307, .integer 0]
    ∧ keyReads (spillHost .idata_len) [200, 100, 7] [] = []
    ∧ lua_encrypt (spillHost .cs) [.string [200, 100, 7], .string []]
      = .ok [.string [200, 100, 7], .integer 0, .integer 307] :=
  ⟨rfl, rfl, rfl⟩

/-! ## Lemmas on the integer conversions -/

theorem toU64_lt (n : Int) : toU64 n < 2 ^ 64 := by
  unfold toU64
  have h1 : 0 ≤ n % (2 ^ 64 : Int) := Int.emod_nonneg _ (by norm_num)
  have h2 : n % (2 ^ 64 : Int) < 2 ^ 64 := Int.emod_lt_of_pos _ (by norm_num)
  omega

theorem toU64_cast (n : Int) : ((toU64 n : Nat) : Int) = n % (2 ^ 64 : Int) := by
  unfold toU64
  exact Int.toNat_of_nonneg (Int.emod_nonneg _ (by norm_num))

theorem ofU64_small (u : Nat) (hu : u < 2 ^ 63) : ofU64 u = (u : Int) := by
  unfold ofU64
  have : u % 2 ^ 64 = u := Nat.mod_eq_of_lt (by omega)
  rw [this, if_pos hu]

theorem and_ffff (x : Nat) : x &&& 0xFFFF = x % 65536 := by
  have := Nat.and_pow_two_sub_one_eq_mod x 16
  simpa using this

theorem and_ffffffff (x : Nat) : x &&& 0xFFFFFFFF = x % 4294967296 := by
  have := Nat.and_pow_two_sub_one_eq_mod x 32
  simpa using this

theorem toU64_mod_cast (n : Int) (m : Nat) (hm : (m : Int) ∣ 2 ^ 64) :
    ((toU64 n % m : Nat) : Int) = n % (m : Int) := by
  rw [Int.natCast_mod, toU64_cast]
  exact Int.emod_emod_of_dvd n hm

theorem luaBand_ff (n : Int) : luaBand n 0xFF = n % 256 := by
  unfold luaBand
  have h255 : toU64 0xFF = 0xFF := by decide
  rw [h255, and_ff, ofU64_small _ (by omega)]
  exact toU64_mod_cast n 256 (by norm_num)

theorem luaBand_ffff (n : Int) : luaBand n 0xFFFF = n % 65536 := by
  unfold luaBand
  have h : toU64 0xFFFF = 0xFFFF := by decide
  rw [h, and_ffff, ofU64_small _ (by omega)]
  exact toU64_mod_cast n 65536 (by norm_num)

theorem luaBand_ffffffff (n : Int) : luaBand n 0xFFFFFFFF = n % 4294967296 := by
  unfold luaBand
  have h : toU64 0xFFFFFFFF = 0xFFFFFFFF := by decide
  rw [h, and_ffffffff, ofU64_small _ (by omega)]
  exact toU64_mod_cast n 4294967296 (by norm_num)

theorem range8 : List.range 8 = [0, 1, 2, 3, 4, 5, 6, 7] := by decide

theorem objectBytes8 (x : Nat) : objectBytes 8 x =
    [x % 256, x / 256 % 256, x / 256 ^ 2 % 256, x / 256 ^ 3 % 256, x / 256 ^ 4 % 256,
      x / 256 ^ 5 % 256, x / 256 ^ 6 % 256, x / 256 ^ 7 % 256] := by
  simp [objectBytes, range8]

theorem loadObject8 (h : Host) (s : Bytes) : loadObject h s 8 =
    memByte h s 0 + memByte h s 1 * 256 + memByte h s 2 * 256 ^ 2 + memByte h s 3 * 256 ^ 3
      + memByte h s 4 * 256 ^ 4 + memByte h s 5 * 256 ^ 5 + memByte h s 6 * 256 ^ 6
      + memByte h s 7 * 256 ^ 7 := by
  simp [loadObject, range8]
  ring

theorem conv_uint8_integer (h : Host) (n : Int) :
    conv_uint8 h [.integer n] = .ok [.string [toU64 n % 256]] := by
  simp [conv_uint8, lua_isinteger, index, lua_tointeger, objectBytes8]

theorem lua_isinteger_string (s : Bytes) (rest : List LuaValue) :
    lua_isinteger (.string s :: rest) 1 = false := rfl

theorem lua_isstring_string (s : Bytes) (rest : List LuaValue) :
    lua_isstring (.string s :: rest) 1 = true := rfl

theorem lua_tolstring_string (h : Host) (s : Bytes) (rest : List LuaValue) :
    lua_tolstring h (.string s :: rest) 1 = some s := rfl

theorem objectBytes4 (x : Nat) : objectBytes 4 x =
    [x % 256, x / 256 % 256, x / 256 ^ 2 % 256, x / 256 ^ 3 % 256] := by
  have : List.range 4 = [0, 1, 2, 3] := by decide
  simp [objectBytes, this]

theorem toU64_mod_256 (n : Int) : ((toU64 n % 256 : Nat) : Int) = n % 256 := by
  have := toU64_mod_cast n 256 (by norm_num)
  exact_mod_cast this

theorem toU64_mod_65536 (n : Int) : ((toU64 n % 65536 : Nat) : Int) = n % 65536 := by
  have := toU64_mod_cast n 65536 (by norm_num)
  exact_mod_cast this

theorem toU64_mod_4294967296 (n : Int) :
    ((toU64 n % 4294967296 : Nat) : Int) = n % 4294967296 := by
  have := toU64_mod_cast n 4294967296 (by norm_num)
  exact_mod_cast this

theorem loadObject_one (h : Host) (b0 : Nat) (h0 : b0 < 256) :
    loadObject h [b0] 8 % 256 = b0 := by
  rw [loadObject8]
  simp [memByte]
  omega

theorem loadObject_two (h : Host) (b0 b1 : Nat) (h0 : b0 < 256) (h1 : b1 < 256) :
    loadObject h [b0, b1] 8 % 65536 = b0 + b1 * 256 := by
  rw [loadObject8]
  simp [memByte]
  omega

theorem loadObject_four (h : Host) (b0 b1 b2 b3 : Nat) (h0 : b0 < 256) (h1 : b1 < 256)
    (h2 : b2 < 256) (h3 : b3 < 256) :
    loadObject h [b0, b1, b2, b3] 8 % 4294967296
      = b0 + b1 * 256 + b2 * 65536 + b3 * 16777216 := by
  rw [loadObject8]
  simp [memByte]
  omega

theorem conv_uint8_string1 (h : Host) (b0 : Nat) (h0 : b0 < 256) :
    conv_uint8 h [.string [b0]] = .ok [.integer ((b0 : Nat) : Int)] := by
  unfold conv_uint8
  simp only [lua_isinteger_string, lua_isstring_string, lua_tolstring_string, and_ff, loadObject_one h b0 h0]
  simp only [Bool.false_eq_true, if_false, if_true]
  rw [ofU64_small _ (by omega)]

theorem conv_uint16_integer (h : Host) (n : Int) :
    conv_uint16 h [.integer n] = .ok [.string [toU64 n % 256, toU64 n / 256 % 256]] := by
  simp [conv_uint16, lua_isinteger, index, lua_tointeger, objectBytes8]

theorem conv_uint16_string2 (h : Host) (b0 b1 : Nat) (h0 : b0 < 256) (h1 : b1 < 256) :
    conv_uint16 h [.string [b0, b1]] = .ok [.integer ((b0 + b1 * 256 : Nat) : Int)] := by
  unfold conv_uint16
  simp only [lua_isinteger_string, lua_isstring_string, lua_tolstring_string, and_ffff, loadObject_two h b0 b1 h0 h1]
  simp only [Bool.false_eq_true, if_false, if_true]
  rw [ofU64_small _ (by omega)]

theorem conv_uint32_integer (h : Host) (n : Int) :
    conv_uint32 h [.integer n] = .ok [.string [toU64 n % 256, toU64 n / 256 % 256,
      toU64 n / 256 ^ 2 % 256, toU64 n / 256 ^ 3 % 256]] := by
  simp [conv_uint32, lua_isinteger, index, lua_tointeger, objectBytes8]

theorem conv_uint32_string4 (h : Host) (b0 b1 b2 b3 : Nat) (h0 : b0 < 256) (h1 : b1 < 256)
    (h2 : b2 < 256) (h3 : b3 < 256) :
    conv_uint32 h [.string [b0, b1, b2, b3]]
      = .ok [.integer ((b0 + b1 * 256 + b2 * 65536 + b3 * 16777216 : Nat) : Int)] := by
  unfold conv_uint32
  simp only [lua_isinteger_string, lua_isstring_string, lua_tolstring_string, and_ffffffff, loadObject_four h b0 b1 b2 b3 h0 h1 h2 h3]
  simp only [Bool.false_eq_true, if_false, if_true]
  rw [ofU64_small _ (by omega)]

/-- C4: for every integer `n`, `uint8`, `uint16` and `uint32` applied to `n` yield a
string of exactly 1, 2 and 4 bytes, and the same operation applied to that
string yields the integer `n & 0xFF`, `n & 0xFFFF` and `n & 0xFFFFFFFF`
respectively, where `&` is Lua's operator on 64-bit integers (`luaBand`), so
that these are `n mod 256`, `n mod 65536` and `n mod 4294967296`. -/
theorem uint_round_trip (h : Host) (n : Int) :
    (∃ s : Bytes, conv_uint8 h [.integer n] = .ok [.string s] ∧ s.length = 1
      ∧ conv_uint8 h [.string s] = .ok [.integer (luaBand n 0xFF)])
    ∧ (∃ s : Bytes, conv_uint16 h [.integer n] = .ok [.string s] ∧ s.length = 2
      ∧ conv_uint16 h [.string s] = .ok [.integer (luaBand n 0xFFFF)])
    ∧ (∃ s : Bytes, conv_uint32 h [.integer n] = .ok [.string s] ∧ s.length = 4
      ∧ conv_uint32 h [.string s] = .ok [.integer (luaBand n 0xFFFFFFFF)])
    ∧ luaBand n 0xFF = n % 256 ∧ luaBand n 0xFFFF = n % 65536
    ∧ luaBand n 0xFFFFFFFF = n % 4294967296 := by
  refine ⟨⟨_, conv_uint8_integer h n, rfl, ?_⟩, ⟨_, conv_uint16_integer h n, rfl, ?_⟩,
    ⟨_, conv_uint32_integer h n, rfl, ?_⟩, luaBand_ff n, luaBand_ffff n, luaBand_ffffffff n⟩
  · rw [conv_uint8_string1 h _ (Nat.mod_lt _ (by decide)), luaBand_ff, ← toU64_mod_256]
  · rw [conv_uint16_string2 h _ _ (Nat.mod_lt _ (by decide)) (Nat.mod_lt _ (by decide)),
      luaBand_ffff, ← toU64_mod_65536]
    have : toU64 n % 256 + toU64 n / 256 % 256 * 256 = toU64 n % 65536 := by omega
    rw [this]
  · rw [conv_uint32_string4 h _ _ _ _ (Nat.mod_lt _ (by decide)) (Nat.mod_lt _ (by decide))
      (Nat.mod_lt _ (by decide)) (Nat.mod_lt _ (by decide)),
      luaBand_ffffffff, ← toU64_mod_4294967296]
    have : toU64 n % 256 + toU64 n / 256 % 256 * 256 + toU64 n / 256 ^ 2 % 256 * 65536
        + toU64 n / 256 ^ 3 % 256 * 16777216 = toU64 n % 4294967296 := by
      norm_num
      omega
    rw [this]

theorem loadObject_objectBytes8 (h : Host) (f : Nat) (hf : f < 2 ^ 64) :
    loadObject h (objectBytes 8 f) 8 = f := by
  rw [loadObject8, objectBytes8]
  simp [memByte]
  omega

/-- Away from strings that read as numerals the round trip through `double`
holds: the 8 bytes of `f` come back as `f`. -/
theorem conv_double_round_trip (h : Host) (f : Nat) (hf : f < 2 ^ 64)
    (hnum : lua_isnumber h [.string (objectBytes 8 f)] 1 = false) :
    conv_double h [.number f] = .ok [.string (objectBytes 8 f)]
    ∧ conv_double h [.string (objectBytes 8 f)] = .ok [.number f] := by
  have hl : (objectBytes 8 f).length = 8 := by simp [objectBytes]
  refine ⟨?_, ?_⟩
  · have : (objectBytes 8 f).take 8 = objectBytes 8 f :=
      List.take_of_length_le (Nat.le_of_eq hl)
    simp [conv_double, lua_isnumber, lua_tonumber, lua_tonumberx, index, this]
  · unfold conv_double
    rw [hnum]
    simp only [Bool.false_eq_true, if_false, lua_isstring_string, lua_tolstring_string, if_true,
      loadObject_objectBytes8 h f hf]

theorem conv_double_round_trip_one :
    conv_double plainHost [.number 0x3FF0000000000000]
      = .ok [.string [0, 0, 0, 0, 0, 0, 240, 63]]
    ∧ conv_double plainHost [.string [0, 0, 0, 0, 0, 0, 240, 63]]
      = .ok [.number 0x3FF0000000000000] :=
  conv_double_round_trip plainHost 0x3FF0000000000000 (by decide) rfl

/-- C5 at a failing input: the double with bit pattern `0x3131313131313131` is
turned by `double` into the string `"11111111"`; `double` applied to that string
finds `lua_isnumber` true (the string is a numeral) and takes the
number-to-string direction again, returning the 8 bytes of the number 11111111
instead of the original float. Likewise `float` applied to the string `"1111"`
returns a string. -/
theorem conv_double_numeric_string (h : Host) :
    conv_double h [.number 0x3131313131313131] = .ok [.string (ascii "11111111")]
    ∧ conv_double h [.string (ascii "11111111")]
        = .ok [.string (objectBytes 8 (h.int2number 11111111))]
    ∧ conv_double h [.string (ascii "11111111")] ≠ .ok [.number 0x3131313131313131]
    ∧ conv_float h [.string (ascii "1111")]
        = .ok [.string (objectBytes 4 (h.double2float (h.int2number 1111)))] := by
  have e8 : l_str2int (ascii "11111111") = some (11111111, 8) := by decide
  have l8 : (ascii "11111111").length = 8 := by decide
  have e4 : l_str2int (ascii "1111") = some (1111, 4) := by decide
  have l4 : (ascii "1111").length = 4 := by decide
  have hd : conv_double h [.string (ascii "11111111")]
        = .ok [.string (objectBytes 8 (h.int2number 11111111))] := by
    simp [conv_double, lua_isnumber, lua_tonumber, lua_tonumberx, index, l_strton, e8, l8,
      objectBytes8]
  refine ⟨?_, hd, ?_, ?_⟩
  · have : (objectBytes 8 0x3131313131313131).take 8 = ascii "11111111" := by decide
    simp [conv_double, lua_isnumber, lua_tonumber, lua_tonumberx, index, this]
  · rw [hd]; simp
  · simp [conv_float, lua_isnumber, lua_tonumber, lua_tonumberx, index, l_strton, e4, l4,
      objectBytes4]

/-! ## Argument errors -/

theorem conv_float_string_ok (h : Host) (s : Bytes) :
    ∃ r, conv_float h [.string s] = .ok r := by
  unfold conv_float
  split
  · exact ⟨_, rfl⟩
  · simp only [lua_isstring_string, lua_tolstring_string, if_true]
    exact ⟨_, rfl⟩

theorem conv_double_string_ok (h : Host) (s : Bytes) :
    ∃ r, conv_double h [.string s] = .ok r := by
  unfold conv_double
  split
  · exact ⟨_, rfl⟩
  · simp only [lua_isstring_string, lua_tolstring_string, if_true]
    exact ⟨_, rfl⟩

/-- C6: each of `uint8`, `uint16`, `uint32`, `float` and `double`, called with one
argument `v`, fails with its type-mismatch error exactly when `v` is neither a
number nor a string; `uint32` called with a boolean fails with that error. -/
theorem conv_type_mismatch (h : Host) (v : LuaValue) :
    (conv_uint8 h [v] = luaL_error "Incompatible type for argument 1, expected string or integer"
      ↔ lua_type [v] 1 ≠ .number ∧ lua_type [v] 1 ≠ .string)
    ∧ (conv_uint16 h [v] = luaL_error "Incompatible type for argument 1, expected string or integer"
      ↔ lua_type [v] 1 ≠ .number ∧ lua_type [v] 1 ≠ .string)
    ∧ (conv_uint32 h [v] = luaL_error "Incompatible type for argument 1, expected string or integer"
      ↔ lua_type [v] 1 ≠ .number ∧ lua_type [v] 1 ≠ .string)
    ∧ (conv_float h [v] = luaL_error "Incompatible type for argument 1, expected string or number"
      ↔ lua_type [v] 1 ≠ .number ∧ lua_type [v] 1 ≠ .string)
    ∧ (conv_double h [v] = luaL_error "Incompatible type for argument 1, expected string or number"
      ↔ lua_type [v] 1 ≠ .number ∧ lua_type [v] 1 ≠ .string)
    ∧ ∀ b : Bool, conv_uint32 h [.boolean b]
        = luaL_error "Incompatible type for argument 1, expected string or integer" := by
  refine ⟨?_, ?_, ?_, ?_, ?_, fun b => rfl⟩
  · cases v <;> simp [conv_uint8, lua_isinteger, lua_isstring, lua_tolstring, lua_type, index,
      luaL_error]
  · cases v <;> simp [conv_uint16, lua_isinteger, lua_isstring, lua_tolstring, lua_type, index,
      luaL_error]
  · cases v <;> simp [conv_uint32, lua_isinteger, lua_isstring, lua_tolstring, lua_type, index,
      luaL_error]
  · cases v with
    | string s =>
      obtain ⟨r, hr⟩ := conv_float_string_ok h s
      simp [hr, luaL_error, lua_type, index]
    | _ => simp [conv_float, lua_isnumber, lua_tonumberx, lua_isstring, lua_tolstring, lua_type,
        index, luaL_error]
  · cases v with
    | string s =>
      obtain ⟨r, hr⟩ := conv_double_string_ok h s
      simp [hr, luaL_error, lua_type, index]
    | _ => simp [conv_double, lua_isnumber, lua_tonumberx, lua_isstring, lua_tolstring, lua_type,
        index, luaL_error]

/-- C7 as the code has it: `encrypt(v, ...)` fails with a type error on its first
argument, whatever further arguments follow, for every `v` that is neither a
string nor a number, and when no argument is given at all. -/
theorem encrypt_type_error (h : Host) (v : LuaValue) (rest : List LuaValue)
    (hs : lua_type [v] 1 ≠ .string) (hn : lua_type [v] 1 ≠ .number) :
    lua_encrypt h (v :: rest) = .error (.typeError 1 "string" (lua_type [v] 1))
    ∧ lua_encrypt h [] = .error (.typeError 1 "string" .none) := by
  refine ⟨?_, rfl⟩
  cases v <;> first
    | rfl
    | exact absurd rfl hs
    | exact absurd rfl hn

theorem encrypt_type_error_witness :
    lua_type [.boolean true] 1 ≠ .string ∧ lua_type [.boolean true] 1 ≠ .number
    ∧ lua_encrypt plainHost [.boolean true, .string [1]]
      = .error (.typeError 1 "string" (lua_type [.boolean true] 1))
    ∧ lua_encrypt plainHost [] = .error (.typeError 1 "string" .none) :=
  ⟨by decide, by decide,
    encrypt_type_error plainHost (.boolean true) [.string [1]] (by decide) (by decide)⟩

/-- C7 fails as stated: `encrypt(5)` on the integer 5 does not fail; the number
is converted to the string `"5"` and the call returns three values. -/
theorem encrypt_accepts_number :
    lua_encrypt plainHost [.integer 5] = .ok [.string (ascii "5"), .integer 53, .integer 53]
    ∧ lua_encrypt plainHost [.integer 5, .string (ascii "k")]
        = .ok [.string [94], .integer 53, .integer 94] :=
  ⟨rfl, rfl⟩

/-! ## The `arg` table -/

theorem find_filter_ne (t : LuaTable) (i j : Int) (hji : j ≠ i) :
    (t.filter fun p => p.1 ≠ i).find? (fun p => p.1 == j) = t.find? (fun p => p.1 == j) := by
  induction t with
  | nil => rfl
  | cons p t ih =>
    by_cases hp : p.1 = i
    · have hpj : (p.1 == j) = false := by
        rw [beq_eq_false_iff_ne]
        exact fun e => hji (e.symm.trans hp)
      rw [List.filter_cons_of_neg (by simp [hp])]
      simp only [List.find?_cons, hpj]
      exact ih
    · rw [List.filter_cons_of_pos (by simp [hp])]
      by_cases hpj : (p.1 == j) = true
      · simp only [List.find?_cons, hpj]
      · have hpj' : (p.1 == j) = false := by simpa using hpj
        simp only [List.find?_cons, hpj']
        exact ih

theorem lua_rawgeti_rawseti (t : LuaTable) (i j : Int) (v : LuaValue) :
    lua_rawgeti (lua_rawseti t i v) j = if j = i then v else lua_rawgeti t j := by
  unfold lua_rawgeti lua_rawseti
  by_cases hji : j = i
  · subst hji
    simp
  · have hij : (i == j) = false := by
      rw [beq_eq_false_iff_ne]
      exact fun e => hji e.symm
    rw [if_neg hji]
    simp only [List.find?_cons, hij]
    rw [find_filter_ne t i j hji]

theorem pmain_rawgeti (argv : List Bytes) (argc j : Nat) :
    lua_rawgeti (pmain argc argv) (Int.ofNat j)
      = if j < argc then lua_pushstring (argv.get? j) else .nil := by
  unfold pmain
  induction argc with
  | zero => simp [lua_rawgeti]
  | succ n ih =>
    rw [List.range_succ, List.foldl_append]
    simp only [List.foldl_cons, List.foldl_nil]
    rw [lua_rawgeti_rawseti, ih]
    by_cases hjn : j = n
    · subst hjn
      simp
    · have : ¬ Int.ofNat j = Int.ofNat n := fun e => hjn (Int.ofNat.inj e)
      simp only [this, if_false]
      by_cases hlt : j < n
      · simp [hlt, Nat.lt_succ_of_lt hlt]
      · have : ¬ j < n + 1 := by omega
        simp [hlt, this]

/-- C8 as the code has it: for the command line `[prog, a1, ..., an]` the table
`arg` holds the program's own invocation token at index 0 and argument `a(i+1)`
at index `i + 1`: `arg[i] = argv[i]` for every `i < argc`. -/
theorem arg_table (prog : Bytes) (args : List Bytes) (i : Nat) (hi : i < args.length) :
    lua_rawgeti (main (prog :: args)) 0 = .string prog
    ∧ lua_rawgeti (main (prog :: args)) (Int.ofNat (i + 1)) = .string (args.get ⟨i, hi⟩) := by
  unfold main
  refine ⟨?_, ?_⟩
  · have := pmain_rawgeti (prog :: args) (prog :: args).length 0
    simpa [lua_pushstring] using this
  · have := pmain_rawgeti (prog :: args) (prog :: args).length (i + 1)
    rw [this]
    simp [hi, lua_pushstring, List.getElem?_eq_getElem hi]

theorem arg_table_witness :
    0 < [ascii "a1", ascii "a2"].length
    ∧ lua_rawgeti (main (ascii "lcomp_app" :: [ascii "a1", ascii "a2"])) 0
        = .string (ascii "lcomp_app")
    ∧ lua_rawgeti (main (ascii "lcomp_app" :: [ascii "a1", ascii "a2"])) (Int.ofNat (0 + 1))
        = .string (ascii "a1") :=
  ⟨by decide, arg_table (ascii "lcomp_app") [ascii "a1", ascii "a2"] 0 (by decide)⟩

/-- C8 fails as stated: for the command line `lcomp_app a1`, `arg[0]` is the
program's own invocation token `lcomp_app`, not the first argument `a1`. -/
theorem arg_zero_is_program :
    lua_rawgeti (main [ascii "lcomp_app", ascii "a1"]) 0 = .string (ascii "lcomp_app")
    ∧ lua_rawgeti (main [ascii "lcomp_app", ascii "a1"]) 0 ≠ .string (ascii "a1") := by
  decide

/-! ## The message handler -/

theorem cstring_synthesized (t : LuaType) :
    cstring (ascii "(error object is a " ++ ascii (lua_typename t) ++ ascii " value)")
      = ascii "(error object is a " ++ ascii (lua_typename t) ++ ascii " value)" := by
  cases t <;> decide

/-- C9 as the code has it: for an error value that `lua_tostring` does not
render (neither a string nor a number) and whose `__tostring` metamethod, if
any, does not produce a string, the handler returns the text
`(error object is a T value)`, `T` the type name of the value, followed by a
newline, `stack traceback:` and the stack levels. -/
theorem msghandler_synthesized (h : Host) (callmeta : LuaValue → Option LuaValue)
    (frames : Bytes) (v : LuaValue) (ht : lua_tolstring h [v] 1 = none)
    (hm : ∀ s, callmeta v ≠ some (.string s)) :
    msghandler h callmeta frames v
      = .string (ascii "(error object is a " ++ ascii (luaL_typename [v] 1) ++ ascii " value)"
          ++ [10] ++ ascii "stack traceback:" ++ frames) := by
  have hc := cstring_synthesized (lua_type [v] 1)
  unfold msghandler
  rw [ht]
  cases hcm : callmeta v with
  | none => simp only [luaL_traceback, luaL_typename, hc]
  | some r =>
    cases r with
    | string s => exact absurd hcm (hm s)
    | _ => simp only [luaL_traceback, luaL_typename, hc]

theorem msghandler_synthesized_witness :
    lua_tolstring plainHost [.table] 1 = none
    ∧ (∀ s, (fun _ => some (LuaValue.integer 3) : LuaValue → Option LuaValue) .table
        ≠ some (.string s))
    ∧ msghandler plainHost (fun _ => some (LuaValue.integer 3)) (ascii "[C]: in ?") .table
      = .string (ascii "(error object is a " ++ ascii (luaL_typename [.table] 1)
          ++ ascii " value)" ++ [10] ++ ascii "stack traceback:" ++ ascii "[C]: in ?") :=
  ⟨rfl, fun s => by simp,
    msghandler_synthesized plainHost (fun _ => some (LuaValue.integer 3)) (ascii "[C]: in ?")
      .table rfl (fun s => by simp)⟩

/-- C9 fails as stated: for the error value `nil` (no `__tostring`) the handler
returns `(error object is a nil value)` with the traceback, not the text
`(error object is a value of type, nil)` with the traceback. -/
theorem msghandler_text_differs :
    msghandler plainHost (fun _ => none) [] .nil
      = .string (ascii "(error object is a nil value)" ++ [10] ++ ascii "stack traceback:")
    ∧ msghandler plainHost (fun _ => none) [] .nil
      ≠ .string (ascii "(error object is a value of type, nil)" ++ [10]
          ++ ascii "stack traceback:") := by
  decide

end LuaApplet
